import Mathlib

/-!
Verification of the RefWireCLI dataset-import pipeline.

Shallow embedding of the schema-inference / normalization engine:
* `validateAndProcessJson`, `determineDataType`, `getSampleValue`
  (src/utils/jsonProcessor.js),
* the ID/Name field resolution and the two item-payload construction sites
  (src/commands/datasetCommands.js: the `pull` action and the wizard's
  `confirmAndSave`).

JSON values are modelled by the inductive `JSValue`; JSON numbers appearing in
the verified inputs are integers, so the numeric payload is `Int`.  A parsed
JSON object is represented as its ordered list of own enumerable properties
(the order in which a JS `for..in` loop visits them); `JSON.parse` never
produces duplicate keys or `undefined` values.
-/

namespace RefWire

inductive JSValue where
  | null : JSValue
  | bool : Bool → JSValue
  | num : Int → JSValue
  | str : String → JSValue
  | arr : List JSValue → JSValue
  | obj : List (String × JSValue) → JSValue

abbrev Record := List (String × JSValue)

abbrev KV := String × JSValue

/-- The string conversion `String(v)` of ECMAScript, on JSON values:
`String(null) = "null"`, booleans and integral numbers print canonically,
strings are unchanged, arrays join their elements with "," (with `null`
elements printing as the empty string), plain objects print as
"[object Object]". -/
def jsToStr : JSValue → String
  | JSValue.null => "null"
  | JSValue.bool b => if b then "true" else "false"
  | JSValue.num n => toString n
  | JSValue.str s => s
  | JSValue.obj _ => "[object Object]"
  | JSValue.arr elems => String.intercalate "," (jsArrElems elems)
where
  /-- `Array.prototype.toString` stringifies each element with `String`,
  except `null`/`undefined` elements which become the empty string. -/
  jsArrElems : List JSValue → List String
  | [] => []
  | JSValue.null :: rest => "" :: jsArrElems rest
  | v :: rest => jsToStr v :: jsArrElems rest

/-- `item[key]` on a plain JSON-parsed object: the value at the own property
`key`, or `none` for `undefined` when the key is absent. -/
def jsGet (o : Record) (k : String) : Option JSValue :=
  (o.find? (fun kv => kv.1 == k)).map Prod.snd

/-- `Object.hasOwnProperty.call(item, key)`. -/
def jsHasOwn (o : Record) (k : String) : Bool :=
  o.any (fun kv => kv.1 == k)

/-- Property assignment `o[k] = v` on a plain object: overwrite the own
property in place when present, otherwise append it in insertion order. -/
def objSet (o : Record) (k : String) (v : JSValue) : Record :=
  if o.any (fun kv => kv.1 == k) then
    o.map (fun kv => if kv.1 == k then (k, v) else kv)
  else o ++ [(k, v)]

/-- `v === null || v === undefined` on an optional property read. -/
def isNullish : Option JSValue → Bool
  | none => true
  | some JSValue.null => true
  | some _ => false

inductive DataType where
  | Text | Date | Number | Boolean | List | Unknown
deriving Repr, DecidableEq

def isDigitChar (c : Char) : Bool := decide ('0' ≤ c) && decide (c ≤ '9')

/-- Match of the regular expression `\d{4}-\d{2}-\d{2}` at the head of a
character list. -/
def datePatternAt : List Char → Bool
  | a :: b :: c :: d :: '-' :: e :: f :: '-' :: g :: h :: _ =>
      isDigitChar a && isDigitChar b && isDigitChar c && isDigitChar d &&
      isDigitChar e && isDigitChar f && isDigitChar g && isDigitChar h
  | _ => false

/-- `/\d{4}-\d{2}-\d{2}/.test(s)`: the pattern occurs somewhere in `s`. -/
def datePatternAnywhere : List Char → Bool
  | [] => false
  | c :: cs => datePatternAt (c :: cs) || datePatternAnywhere cs

def digitVal (c : Char) : Nat := c.toNat - '0'.toNat

def isLeapYear (y : Nat) : Bool :=
  (y % 4 == 0 && y % 100 != 0) || y % 400 == 0

def daysInMonth (y m : Nat) : Nat :=
  if m == 2 then (if isLeapYear y then 29 else 28)
  else if m == 4 || m == 6 || m == 9 || m == 11 then 30
  else 31

/-- Modelled from the ECMAScript specification of the `Date.parse` builtin
(a host builtin, not part of this repository), restricted to the date-only
ISO form `YYYY-MM-DD`: such a string parses (is not NaN) exactly when it
denotes a valid proleptic-Gregorian calendar date.  Strings in any other
format are implementation-defined in ECMAScript and are modelled as not
parsing. -/
def dateParseOk (s : String) : Bool :=
  match s.data with
  | [y1, y2, y3, y4, '-', m1, m2, '-', d1, d2] =>
      if isDigitChar y1 && isDigitChar y2 && isDigitChar y3 && isDigitChar y4 &&
         isDigitChar m1 && isDigitChar m2 && isDigitChar d1 && isDigitChar d2 then
        let y := ((digitVal y1 * 10 + digitVal y2) * 10 + digitVal y3) * 10 + digitVal y4
        let m := digitVal m1 * 10 + digitVal m2
        let d := digitVal d1 * 10 + digitVal d2
        1 ≤ m && m ≤ 12 && 1 ≤ d && d ≤ daysInMonth y m
      else false
  | _ => false

/-- `determineDataType` of src/utils/jsonProcessor.js: `typeof`-based type
inference; a string is a Date when it both contains the `\d{4}-\d{2}-\d{2}`
pattern and `Date.parse` succeeds on it. -/
def determineDataType : JSValue → DataType
  | JSValue.str s =>
      if datePatternAnywhere s.data && dateParseOk s then DataType.Date
      else DataType.Text
  | JSValue.num _ => DataType.Number
  | JSValue.bool _ => DataType.Boolean
  | JSValue.null => DataType.Unknown
  | JSValue.arr _ => DataType.List
  | JSValue.obj _ => DataType.Unknown

/-- `getSampleValue` of src/utils/jsonProcessor.js.  The `undefined` branch of
the source cannot arise here: `JSON.parse` never yields `undefined`, so the
domain is exactly `JSValue`. -/
def getSampleValue : JSValue → String
  | JSValue.null => "null"
  | JSValue.str s => if s.length > 30 then s.take 27 ++ "..." else s
  | JSValue.num n => toString n
  | JSValue.bool b => if b then "true" else "false"
  | JSValue.arr _ => "[...]"
  | JSValue.obj _ => "\x7b...\x7d"

structure Field where
  name : String
  dataType : DataType
  sampleValues : List String
  isId : Bool
  isName : Bool
  isIncluded : Bool
deriving Repr, DecidableEq

/-- The sample-collection step of `validateAndProcessJson` for one sighting of
a field: when fewer than 3 samples are stored, project the value and add it to
the insertion-ordered sample set unless the projection is empty (the source
also guards against `null`/`undefined` projections, which `getSampleValue`
cannot produce here) or already present. -/
def sampleAdd (samples : List String) (v : JSValue) : List String :=
  if samples.length < 3 then
    let sample := getSampleValue v
    if sample != "" && !(samples.contains sample) then samples ++ [sample]
    else samples
  else samples

/-- The field definition created on the first encounter of a key in
`validateAndProcessJson`. -/
def initField (key : String) (v : JSValue) : Field :=
  { name := key
    dataType := determineDataType v
    sampleValues := []
    isId := false
    isName := false
    isIncluded := true }

/-- The per-sighting mutation of a field in `validateAndProcessJson`: sample
collection followed by the Unknown-to-concrete type upgrade. -/
def updateField (f : Field) (v : JSValue) : Field :=
  let f' := { f with sampleValues := sampleAdd f.sampleValues v }
  let currentType := determineDataType v
  if f'.dataType == DataType.Unknown && currentType != DataType.Unknown then
    { f' with dataType := currentType }
  else f'

/-- Processing of one `(key, value)` pair of a record by the inner loop of
`validateAndProcessJson`: create the field on first encounter, then run the
sample/type update (the source runs the update code in both cases). -/
def processKey (fields : List Field) (key : String) (v : JSValue) : List Field :=
  if fields.any (fun f => f.name == key) then
    fields.map (fun f => if f.name == key then updateField f v else f)
  else fields ++ [updateField (initField key v) v]

def step (fs : List Field) (kv : KV) : List Field := processKey fs kv.1 kv.2

inductive ValidationError where
  | notArray
  | emptyArray
  | itemNotObject (index : Nat)
  | noFields
deriving Repr, DecidableEq

/-- The own enumerable properties of an array element, empty for non-objects. -/
def recordKVs : JSValue → Record
  | JSValue.obj kvs => kvs
  | _ => []

def isPlainObject : JSValue → Bool
  | JSValue.obj _ => true
  | _ => false

/-- The record loop of `validateAndProcessJson`: reject the first element that
is not a plain object (reporting its index), otherwise fold every own key of
every record through `processKey`. -/
def processRecords : List JSValue → Nat → List Field → Except ValidationError (List Field)
  | [], _, fs => Except.ok fs
  | item :: rest, i, fs =>
      match item with
      | JSValue.obj kvs => processRecords rest (i + 1) (kvs.foldl step fs)
      | _ => Except.error (ValidationError.itemNotObject i)

/-- `validateAndProcessJson` of src/utils/jsonProcessor.js, applied to the
already-parsed JSON value (the source's `JSON.parse` and raw-text handling
are upstream of this logic).  Failure (the source prints a validation error
and returns `false`, producing no field list) is the `Except.error` case. -/
def validateAndProcessJson (parsed : JSValue) : Except ValidationError (List Field) :=
  match parsed with
  | JSValue.arr items =>
      if items.length = 0 then Except.error ValidationError.emptyArray
      else
        match processRecords items 0 [] with
        | Except.error e => Except.error e
        | Except.ok fields =>
            if fields.length = 0 then Except.error ValidationError.noFields
            else Except.ok fields
  | _ => Except.error ValidationError.notArray

/-! ### ID / Name field resolution (pull action, datasetCommands.js) -/

inductive ResolveError where
  | fieldNotFound (specified : String) (available : List String)
  | resolutionFailed
deriving Repr, DecidableEq

/-- `fields.find(f => f.name === hint)` followed by `field.isId = true`:
mark the first field named `hint`, or fail when none matches. -/
def markFirstId (hint : String) : List Field → Option (List Field)
  | [] => none
  | f :: fs =>
      if f.name == hint then some ({ f with isId := true } :: fs)
      else
        match markFirstId hint fs with
        | some fs' => some (f :: fs')
        | none => none

/-- `fields.find(f => f.name === hint)` followed by `field.isName = true`. -/
def markFirstName (hint : String) : List Field → Option (List Field)
  | [] => none
  | f :: fs =>
      if f.name == hint then some ({ f with isName := true } :: fs)
      else
        match markFirstName hint fs with
        | some fs' => some (f :: fs')
        | none => none

/-- ID-field resolution of the `pull` action: an explicit `--id-field` must
name a discovered field (otherwise the thrown error lists the available field
names) and then every field's `isId` is set to whether its name matches; with
no explicit choice, the remote catalog's `meta.idField` hint is looked up and
its absence (or the absence of the hint itself) throws the
no-ID-field-detected error. -/
def resolveIdField (fields : List Field) (specified : Option String)
    (hint : Option String) : Except ResolveError (List Field) :=
  let fieldNames := fields.map (fun f => f.name)
  match specified with
  | some spec =>
      if fieldNames.contains spec then
        Except.ok (fields.map (fun f => { f with isId := f.name == spec }))
      else Except.error (ResolveError.fieldNotFound spec fieldNames)
  | none =>
      match hint with
      | some h =>
          match markFirstId h fields with
          | some fields' => Except.ok fields'
          | none => Except.error ResolveError.resolutionFailed
      | none => Except.error ResolveError.resolutionFailed

/-- Name-field resolution of the `pull` action; same policy as
`resolveIdField`, acting on `isName`. -/
def resolveNameField (fields : List Field) (specified : Option String)
    (hint : Option String) : Except ResolveError (List Field) :=
  let fieldNames := fields.map (fun f => f.name)
  match specified with
  | some spec =>
      if fieldNames.contains spec then
        Except.ok (fields.map (fun f => { f with isName := f.name == spec }))
      else Except.error (ResolveError.fieldNotFound spec fieldNames)
  | none =>
      match hint with
      | some h =>
          match markFirstName h fields with
          | some fields' => Except.ok fields'
          | none => Except.error ResolveError.resolutionFailed
      | none => Except.error ResolveError.resolutionFailed

/-! ### Item payload construction (wizard `confirmAndSave` and `pull` action) -/

structure DatasetItem where
  Id : String
  Name : String
  Data : Record
  IsArchived : Bool

/-- The members of `Object.prototype` reachable by a string-keyed property
read on a plain object literal; every one of them is a function or an object,
hence truthy. -/
def objectPrototypeKeys : List String :=
  ["constructor", "hasOwnProperty", "isPrototypeOf", "propertyIsEnumerable",
   "toLocaleString", "toString", "valueOf", "__proto__",
   "__defineGetter__", "__defineSetter__", "__lookupGetter__", "__lookupSetter__"]

/-- Truthiness of `itemsPayload[key]` on the plain-object payload: an own key
(whose value is an object, hence truthy) or an inherited `Object.prototype`
member. -/
def payloadHasTruthy (payload : List (String × DatasetItem)) (key : String) : Bool :=
  payload.any (fun kv => kv.1 == key) || objectPrototypeKeys.contains key

/-- One iteration of the wizard's `confirmAndSave` item loop
(datasetCommands.js lines 715-758): skip on null/absent ID or Name, on an
empty stringified ID, or on a truthy `itemsPayload[id]`; otherwise copy every
*included* own field into `data` and insert the entry.  The insertion appends
an own key: the duplicate guard guarantees the key is neither an existing own
key nor an `Object.prototype` member such as `__proto__`. -/
def wizardProcessItem (fields : List Field) (idFieldName nameFieldName : String)
    (acc : List (String × DatasetItem) × Nat) (item : Record) :
    List (String × DatasetItem) × Nat :=
  let itemIdValue := jsGet item idFieldName
  let itemNameValue := jsGet item nameFieldName
  if isNullish itemIdValue || isNullish itemNameValue then
    (acc.1, acc.2 + 1)
  else
    let itemIdString := jsToStr (itemIdValue.getD JSValue.null)
    let itemNameString := jsToStr (itemNameValue.getD JSValue.null)
    if itemIdString == "" then (acc.1, acc.2 + 1)
    else if payloadHasTruthy acc.1 itemIdString then (acc.1, acc.2 + 1)
    else
      let data := fields.foldl (fun d f =>
        if f.isIncluded && jsHasOwn item f.name then
          objSet d f.name ((jsGet item f.name).getD JSValue.null)
        else d) []
      (acc.1 ++ [(itemIdString,
        { Id := itemIdString, Name := itemNameString, Data := data, IsArchived := false })],
       acc.2)

/-- One iteration of the `pull` action's item loop (datasetCommands.js lines
375-414): identical to the wizard's loop except that `data` copies every own
field regardless of its `isIncluded` flag. -/
def pullProcessItem (fields : List Field) (idFieldName nameFieldName : String)
    (acc : List (String × DatasetItem) × Nat) (item : Record) :
    List (String × DatasetItem) × Nat :=
  let itemIdValue := jsGet item idFieldName
  let itemNameValue := jsGet item nameFieldName
  if isNullish itemIdValue || isNullish itemNameValue then
    (acc.1, acc.2 + 1)
  else
    let itemIdString := jsToStr (itemIdValue.getD JSValue.null)
    let itemNameString := jsToStr (itemNameValue.getD JSValue.null)
    if itemIdString == "" then (acc.1, acc.2 + 1)
    else if payloadHasTruthy acc.1 itemIdString then (acc.1, acc.2 + 1)
    else
      let data := fields.foldl (fun d f =>
        if jsHasOwn item f.name then
          objSet d f.name ((jsGet item f.name).getD JSValue.null)
        else d) []
      (acc.1 ++ [(itemIdString,
        { Id := itemIdString, Name := itemNameString, Data := data, IsArchived := false })],
       acc.2)

/-- The wizard's full item-payload construction: the insertion-ordered
`itemsPayload` dictionary together with `skippedItemsCount`. -/
def buildItemsPayloadWizard (fields : List Field) (idFieldName nameFieldName : String)
    (records : List Record) : List (String × DatasetItem) × Nat :=
  records.foldl (wizardProcessItem fields idFieldName nameFieldName) ([], 0)

/-- The `pull` action's full item-payload construction. -/
def buildItemsPayloadPull (fields : List Field) (idFieldName nameFieldName : String)
    (records : List Record) : List (String × DatasetItem) × Nat :=
  records.foldl (pullProcessItem fields idFieldName nameFieldName) ([], 0)

/-- The field-definition record handed to `api.createDataset`. -/
structure DatasetFieldOut where
  Name : String
  DataType : DataType
  IsId : Bool
  IsName : Bool
  IsRequired : Bool
  IsIncluded : Bool
  SampleValues : List String
deriving Repr, DecidableEq

/-- The wizard's `finalFields` (datasetCommands.js lines 766-777): only the
included fields, mapped to the API shape. -/
def finalFieldsWizard (fields : List Field) : List DatasetFieldOut :=
  (fields.filter (fun f => f.isIncluded)).map (fun f =>
    { Name := f.name
      DataType := f.dataType
      IsId := f.isId
      IsName := f.isName
      IsRequired := f.isId || f.isName
      IsIncluded := f.isIncluded
      SampleValues := f.sampleValues })

/-- The `pull` action's `finalFields` (datasetCommands.js lines 421-429):
every field, mapped to the API shape with `IsIncluded` forced to true. -/
def finalFieldsPull (fields : List Field) : List DatasetFieldOut :=
  fields.map (fun f =>
    { Name := f.name
      DataType := f.dataType
      IsId := f.isId
      IsName := f.isName
      IsRequired := f.isId || f.isName
      IsIncluded := true
      SampleValues := f.sampleValues })

/-! ### Specification-side vocabulary

Order- and content-characterisations used to state the claims about
discovery.  `firstSeen` is the first-sighting dedup of a key sequence,
`valuesOfKey` the subsequence of values carried by one key, and
`firstConcreteType` the first non-Unknown inference. -/

def insertKey (ks : List String) (k : String) : List String :=
  if k ∈ ks then ks else ks ++ [k]

/-- The distinct elements of `l` in order of first sighting. -/
def firstSeen (l : List String) : List String := l.foldl insertKey []

/-- All own enumerable properties of all records, in iteration order. -/
def allKVs (records : List Record) : List KV :=
  records.flatMap (fun r => r)

def allKeys (records : List Record) : List String :=
  (allKVs records).map Prod.fst

/-- The values attached to key `k` in a flat property sequence, in order. -/
def valuesOfKey (k : String) (kvs : List KV) : List JSValue :=
  kvs.filterMap (fun kv => if kv.1 = k then some kv.2 else none)

/-- The first non-Unknown type inferred from a value sequence, or Unknown. -/
def firstConcreteType (vs : List JSValue) : DataType :=
  match vs.find? (fun v => determineDataType v != DataType.Unknown) with
  | some v => determineDataType v
  | none => DataType.Unknown

/-- Up to three first-seen distinct non-empty stringified samples. -/
def sampleSpec (vs : List JSValue) : List String :=
  (firstSeen ((vs.map getSampleValue).filter (fun s => s != ""))).take 3

/-- The field that discovery is claimed to produce for key `k` given the flat
property sequence `kvs`. -/
def fieldSpec (k : String) (kvs : List KV) : Field :=
  { name := k
    dataType := firstConcreteType (valuesOfKey k kvs)
    sampleValues := sampleSpec (valuesOfKey k kvs)
    isId := false
    isName := false
    isIncluded := true }

/-- The fold of the discovery loop over a flat property sequence. -/
def discoverFlat (kvs : List KV) : List Field := kvs.foldl step []

/-! ### Concrete inputs used by the end-to-end claims -/

/-- The record sequence of the end-to-end scenario:
`[{"id":"us","name":"United States","pop":331},{"id":"us","name":"dup"},{"id":"","name":"x"}]`. -/
def c2Records : List Record :=
  [[("id", JSValue.str "us"), ("name", JSValue.str "United States"), ("pop", JSValue.num 331)],
   [("id", JSValue.str "us"), ("name", JSValue.str "dup")],
   [("id", JSValue.str ""), ("name", JSValue.str "x")]]

/-- The fields discovery yields on `c2Records` (all included by default). -/
def c2Fields : List Field :=
  [{ name := "id", dataType := DataType.Text, sampleValues := ["us"],
     isId := false, isName := false, isIncluded := true },
   { name := "name", dataType := DataType.Text, sampleValues := ["United States", "dup", "x"],
     isId := false, isName := false, isIncluded := true },
   { name := "pop", dataType := DataType.Number, sampleValues := ["331"],
     isId := false, isName := false, isIncluded := true }]

/-- The single payload entry the end-to-end scenario keeps. -/
def c2Item : DatasetItem :=
  { Id := "us"
    Name := "United States"
    Data := [("id", JSValue.str "us"), ("name", JSValue.str "United States"),
             ("pop", JSValue.num 331)]
    IsArchived := false }

/-- Records whose ID values are inherited `Object.prototype` member names. -/
def c9Records : List Record :=
  [[("id", JSValue.str "constructor"), ("name", JSValue.str "A")],
   [("id", JSValue.str "toString"), ("name", JSValue.str "B")],
   [("id", JSValue.str "__proto__"), ("name", JSValue.str "C")]]

def c9Fields : List Field :=
  [{ name := "id", dataType := DataType.Text, sampleValues := [],
     isId := true, isName := false, isIncluded := true },
   { name := "name", dataType := DataType.Text, sampleValues := [],
     isId := false, isName := true, isIncluded := true }]

/-- A field list with one excluded field, and a record owning both fields:
the two construction sites disagree on it. -/
def c1Fields : List Field :=
  [{ name := "a", dataType := DataType.Text, sampleValues := [],
     isId := true, isName := true, isIncluded := true },
   { name := "b", dataType := DataType.Text, sampleValues := [],
     isId := false, isName := false, isIncluded := false }]

def c1Records : List Record := [[("a", JSValue.str "1"), ("b", JSValue.str "2")]]

/-- An all-included field list for the witness of the amended C1. -/
def c1wFields : List Field :=
  [{ name := "a", dataType := DataType.Text, sampleValues := [],
     isId := true, isName := true, isIncluded := true }]

def c1wRecords : List Record := [[("a", JSValue.str "1")]]

/-! ### Theorems: evaluation claims -/

/-- C4: type inference on single values: the string "2024-01-15" infers Date,
the string "hello" infers Text, the number 42 infers Number, the boolean true
infers Boolean, the array [1,2] infers List, and the empty object and null
both infer Unknown. -/
theorem typeInference_examples :
    determineDataType (JSValue.str "2024-01-15") = DataType.Date
  ∧ determineDataType (JSValue.str "hello") = DataType.Text
  ∧ determineDataType (JSValue.num 42) = DataType.Number
  ∧ determineDataType (JSValue.bool true) = DataType.Boolean
  ∧ determineDataType (JSValue.arr [JSValue.num 1, JSValue.num 2]) = DataType.List
  ∧ determineDataType (JSValue.obj []) = DataType.Unknown
  ∧ determineDataType JSValue.null = DataType.Unknown :=
  ⟨by decide, by decide, rfl, rfl, rfl, rfl, rfl⟩

/-- C2: the per-record payload policy on the end-to-end scenario.  Discovery
on the three records yields the three all-included fields `c2Fields`; with ID
field "id" and Name field "name" both construction sites produce exactly one
entry, keyed "us", carrying `Id`/`Name`/`Data`/`IsArchived := false` (the
spec's `{id, name, data, isArchived}` attributes) with `Data` copying the
record's own included fields, and a skip count of 2 (one duplicate ID, one
empty stringified ID). -/
theorem endToEnd_payload :
    validateAndProcessJson (JSValue.arr (c2Records.map JSValue.obj)) = Except.ok c2Fields
  ∧ buildItemsPayloadWizard c2Fields "id" "name" c2Records = ([("us", c2Item)], 2)
  ∧ buildItemsPayloadPull c2Fields "id" "name" c2Records = ([("us", c2Item)], 2) :=
  ⟨rfl, rfl, rfl⟩

/-- C9: a record whose stringified ID is an inherited `Object.prototype`
member name ("constructor", "toString", "__proto__") is reported as a
duplicate by the truthiness check `itemsPayload[id]` even on an empty payload,
so the first record carrying such an ID is skipped and counted instead of
inserted: all three records are skipped and the payload stays empty, in both
construction sites. -/
theorem prototype_duplicate_skip :
    payloadHasTruthy [] "constructor" = true
  ∧ payloadHasTruthy [] "toString" = true
  ∧ payloadHasTruthy [] "__proto__" = true
  ∧ buildItemsPayloadWizard c9Fields "id" "name" c9Records = ([], 3)
  ∧ buildItemsPayloadPull c9Fields "id" "name" c9Records = ([], 3) :=
  ⟨rfl, rfl, rfl, rfl, rfl⟩

/-! ### Theorems: the two construction sites -/

lemma processItem_eq (fields : List Field) (idN nmN : String)
    (hinc : ∀ f ∈ fields, f.isIncluded = true)
    (acc : List (String × DatasetItem) × Nat) (item : Record) :
    wizardProcessItem fields idN nmN acc item = pullProcessItem fields idN nmN acc item := by
  unfold wizardProcessItem pullProcessItem
  have hdata :
      fields.foldl (fun d f =>
        if f.isIncluded && jsHasOwn item f.name then
          objSet d f.name ((jsGet item f.name).getD JSValue.null)
        else d) []
      = fields.foldl (fun d f =>
        if jsHasOwn item f.name then
          objSet d f.name ((jsGet item f.name).getD JSValue.null)
        else d) [] :=
    List.foldl_ext _ _ _ (fun d f hf => by rw [hinc f hf, Bool.true_and])
  rw [hdata]

/-- C1 (amended): the wizard's `confirmAndSave` and the `pull` action run the
same item-payload logic *provided every field of the resolved field list is
marked included* — which the `pull` path establishes by forcing
`isIncluded := true` on every field immediately before construction.  Under
that proviso both sites produce the same items payload, the same skip count,
and the same field-definition list for the upload sink.  (Without it they
diverge: see the counterexample.) -/
theorem sharedPayloadConstruction (fields : List Field) (idN nmN : String)
    (records : List Record) (hinc : ∀ f ∈ fields, f.isIncluded = true) :
    buildItemsPayloadWizard fields idN nmN records
      = buildItemsPayloadPull fields idN nmN records
  ∧ finalFieldsWizard fields = finalFieldsPull fields := by
  constructor
  · unfold buildItemsPayloadWizard buildItemsPayloadPull
    exact List.foldl_ext _ _ _ (fun acc item _ => processItem_eq fields idN nmN hinc acc item)
  · unfold finalFieldsWizard finalFieldsPull
    rw [List.filter_eq_self.mpr (fun f hf => hinc f hf)]
    exact List.map_congr_left (fun f hf => by rw [hinc f hf])

/-- Witness for the amended C1 at a concrete all-included input. -/
theorem sharedPayloadConstruction_witness :
    (∀ f ∈ c1wFields, f.isIncluded = true)
  ∧ (buildItemsPayloadWizard c1wFields "a" "a" c1wRecords
       = buildItemsPayloadPull c1wFields "a" "a" c1wRecords
     ∧ finalFieldsWizard c1wFields = finalFieldsPull c1wFields) :=
  ⟨by decide, sharedPayloadConstruction c1wFields "a" "a" c1wRecords (by decide)⟩

/-- C1 counterexample: with field "b" marked not included, the same input
gives the wizard a `Data` object holding only "a" while the pull action's
holds "a" and "b", and the wizard's field-definition list drops "b" while the
pull action's keeps it — so the two call sites are not the same logic for
every resolved field list. -/
theorem sharedPayloadConstruction_cex :
    (buildItemsPayloadWizard c1Fields "a" "a" c1Records).1.map
        (fun kv => kv.2.Data.map Prod.fst) = [["a"]]
  ∧ (buildItemsPayloadPull c1Fields "a" "a" c1Records).1.map
        (fun kv => kv.2.Data.map Prod.fst) = [["a", "b"]]
  ∧ buildItemsPayloadWizard c1Fields "a" "a" c1Records
      ≠ buildItemsPayloadPull c1Fields "a" "a" c1Records
  ∧ finalFieldsWizard c1Fields ≠ finalFieldsPull c1Fields := by
  refine ⟨rfl, rfl, fun h => ?_, by decide⟩
  exact absurd (congrArg (fun p => p.1.map (fun kv => kv.2.Data.map Prod.fst)) h) (by decide)

lemma wizardProcessItem_count (fields : List Field) (idN nmN : String)
    (acc : List (String × DatasetItem) × Nat) (item : Record) :
    (wizardProcessItem fields idN nmN acc item).1.length
      + (wizardProcessItem fields idN nmN acc item).2
      = acc.1.length + acc.2 + 1 := by
  simp only [wizardProcessItem]
  split
  · dsimp only; omega
  · split
    · dsimp only; omega
    · split
      · dsimp only; omega
      · dsimp only
        simp only [List.length_append, List.length_cons, List.length_nil]
        omega

lemma pullProcessItem_count (fields : List Field) (idN nmN : String)
    (acc : List (String × DatasetItem) × Nat) (item : Record) :
    (pullProcessItem fields idN nmN acc item).1.length
      + (pullProcessItem fields idN nmN acc item).2
      = acc.1.length + acc.2 + 1 := by
  simp only [pullProcessItem]
  split
  · dsimp only; omega
  · split
    · dsimp only; omega
    · split
      · dsimp only; omega
      · dsimp only
        simp only [List.length_append, List.length_cons, List.length_nil]
        omega

/-- C10: item payload construction conserves records — in both construction
sites, every input record either becomes exactly one payload entry or is
counted exactly once as skipped, so payload size plus skip count equals the
number of records. -/
theorem payload_conservation (fields : List Field) (idN nmN : String)
    (records : List Record) :
    (buildItemsPayloadWizard fields idN nmN records).1.length
      + (buildItemsPayloadWizard fields idN nmN records).2 = records.length
  ∧ (buildItemsPayloadPull fields idN nmN records).1.length
      + (buildItemsPayloadPull fields idN nmN records).2 = records.length := by
  have hw : ∀ (rs : List Record) (acc : List (String × DatasetItem) × Nat),
      (rs.foldl (wizardProcessItem fields idN nmN) acc).1.length
        + (rs.foldl (wizardProcessItem fields idN nmN) acc).2
        = acc.1.length + acc.2 + rs.length := by
    intro rs
    induction rs with
    | nil => intro acc; simp
    | cons r rs ih =>
        intro acc
        rw [List.foldl_cons, ih, wizardProcessItem_count]
        simp only [List.length_cons]
        omega
  have hp : ∀ (rs : List Record) (acc : List (String × DatasetItem) × Nat),
      (rs.foldl (pullProcessItem fields idN nmN) acc).1.length
        + (rs.foldl (pullProcessItem fields idN nmN) acc).2
        = acc.1.length + acc.2 + rs.length := by
    intro rs
    induction rs with
    | nil => intro acc; simp
    | cons r rs ih =>
        intro acc
        rw [List.foldl_cons, ih, pullProcessItem_count]
        simp only [List.length_cons]
        omega
  constructor
  · simpa [buildItemsPayloadWizard] using hw records ([], 0)
  · simpa [buildItemsPayloadPull] using hp records ([], 0)

/-! ### Theorems: ID / Name resolution -/

lemma markFirstId_eq_none (h : String) (fields : List Field)
    (hh : h ∉ fields.map Field.name) : markFirstId h fields = none := by
  induction fields with
  | nil => rfl
  | cons f fs ih =>
      simp only [List.map_cons, List.mem_cons, not_or] at hh
      unfold markFirstId
      rw [if_neg (by simp [beq_iff_eq]; exact fun e => hh.1 e.symm), ih hh.2]

lemma markFirstName_eq_none (h : String) (fields : List Field)
    (hh : h ∉ fields.map Field.name) : markFirstName h fields = none := by
  induction fields with
  | nil => rfl
  | cons f fs ih =>
      simp only [List.map_cons, List.mem_cons, not_or] at hh
      unfold markFirstName
      rw [if_neg (by simp [beq_iff_eq]; exact fun e => hh.1 e.symm), ih hh.2]

lemma contains_eq_decide_mem (l : List String) (a : String) :
    l.contains a = decide (a ∈ l) := by
  induction l with
  | nil => rfl
  | cons x xs ih =>
      by_cases hx : x = a <;>
        simp [List.contains_cons, ih, hx, List.mem_cons]

/-- C3: resolution of the designated ID field, and independently of the Name
field, in the `pull` action.  An explicit field name that is not among the
discovered field names fails with the field-not-found error listing the
available names; an explicit name that is present succeeds with exactly that
field flagged (`isId`, resp. `isName`, true exactly on the matching name) and
all field names preserved; with no explicit name, a hint that matches no
discovered field fails with the resolution error. -/
theorem idNameResolution (fields : List Field) (s h : String) (hint : Option String) :
    (s ∉ fields.map Field.name →
        resolveIdField fields (some s) hint
          = Except.error (ResolveError.fieldNotFound s (fields.map Field.name))
      ∧ resolveNameField fields (some s) hint
          = Except.error (ResolveError.fieldNotFound s (fields.map Field.name)))
  ∧ (s ∈ fields.map Field.name →
        (resolveIdField fields (some s) hint).map (fun fs => fs.map (fun f => (f.name, f.isId)))
          = Except.ok (fields.map (fun f => (f.name, f.name == s)))
      ∧ (resolveNameField fields (some s) hint).map (fun fs => fs.map (fun f => (f.name, f.isName)))
          = Except.ok (fields.map (fun f => (f.name, f.name == s))))
  ∧ (h ∉ fields.map Field.name →
        resolveIdField fields none (some h) = Except.error ResolveError.resolutionFailed
      ∧ resolveNameField fields none (some h) = Except.error ResolveError.resolutionFailed) := by
  refine ⟨fun hs => ?_, fun hs => ?_, fun hh => ?_⟩
  · constructor <;>
      simp [resolveIdField, resolveNameField, contains_eq_decide_mem, hs]
  · constructor <;>
      · simp [resolveIdField, resolveNameField, contains_eq_decide_mem, hs, Except.map,
          List.map_map]
  · constructor <;>
      simp [resolveIdField, resolveNameField,
        markFirstId_eq_none h fields hh, markFirstName_eq_none h fields hh]

def demoFields : List Field :=
  [{ name := "code", dataType := DataType.Text, sampleValues := [],
     isId := false, isName := false, isIncluded := true },
   { name := "title", dataType := DataType.Text, sampleValues := [],
     isId := false, isName := false, isIncluded := true }]

/-- Witness for C3 on the two-field schema {code, title}. -/
theorem idNameResolution_witness :
    (resolveIdField demoFields (some "missing") none
       = Except.error (ResolveError.fieldNotFound "missing" ["code", "title"])
     ∧ resolveNameField demoFields (some "missing") none
       = Except.error (ResolveError.fieldNotFound "missing" ["code", "title"]))
  ∧ ((resolveIdField demoFields (some "code") none).map
        (fun fs => fs.map (fun f => (f.name, f.isId)))
       = Except.ok [("code", true), ("title", false)]
     ∧ (resolveNameField demoFields (some "code") none).map
        (fun fs => fs.map (fun f => (f.name, f.isName)))
       = Except.ok [("code", true), ("title", false)])
  ∧ (resolveIdField demoFields none (some "zz") = Except.error ResolveError.resolutionFailed
     ∧ resolveNameField demoFields none (some "zz") = Except.error ResolveError.resolutionFailed) :=
  ⟨(idNameResolution demoFields "missing" "zz" none).1 (by decide),
   (idNameResolution demoFields "code" "zz" none).2.1 (by decide),
   (idNameResolution demoFields "code" "zz" none).2.2 (by decide)⟩

/-! ### Discovery: order, type and sample characterisation -/

lemma mem_insertKey (a k : String) (ks : List String) :
    a ∈ insertKey ks k ↔ a ∈ ks ∨ a = k := by
  unfold insertKey
  split
  · next hk => exact ⟨Or.inl, fun h => h.elim id (fun e => e ▸ hk)⟩
  · simp

lemma nodup_insertKey (k : String) (ks : List String) (hk : ks.Nodup) :
    (insertKey ks k).Nodup := by
  unfold insertKey
  split
  · exact hk
  · next hmem => exact (List.concat_eq_append ks k) ▸ List.Nodup.concat hmem hk

lemma mem_foldl_insertKey (a : String) (l : List String) :
    ∀ acc, a ∈ l.foldl insertKey acc ↔ a ∈ acc ∨ a ∈ l := by
  induction l with
  | nil => simp
  | cons x xs ih =>
      intro acc
      rw [List.foldl_cons, ih, mem_insertKey]
      simp [List.mem_cons]
      tauto

lemma nodup_foldl_insertKey (l : List String) :
    ∀ acc, acc.Nodup → (l.foldl insertKey acc).Nodup := by
  induction l with
  | nil => intro acc h; exact h
  | cons x xs ih =>
      intro acc h
      exact ih _ (nodup_insertKey x acc h)

lemma mem_firstSeen (a : String) (l : List String) : a ∈ firstSeen l ↔ a ∈ l := by
  have := mem_foldl_insertKey a l []
  simpa [firstSeen] using this

lemma nodup_firstSeen (l : List String) : (firstSeen l).Nodup :=
  nodup_foldl_insertKey l [] List.nodup_nil

lemma firstSeen_append_single (l : List String) (k : String) :
    firstSeen (l ++ [k]) = insertKey (firstSeen l) k := by
  simp [firstSeen, List.foldl_append]

lemma firstSeen_eq_nil_iff (l : List String) : firstSeen l = [] ↔ l = [] := by
  constructor
  · intro h
    cases l with
    | nil => rfl
    | cons a t =>
        exact absurd ((mem_firstSeen a (a :: t)).mpr (List.mem_cons_self a t))
          (by simp [h])
  · intro h; subst h; rfl

lemma valuesOfKey_append (k : String) (xs ys : List KV) :
    valuesOfKey k (xs ++ ys) = valuesOfKey k xs ++ valuesOfKey k ys := by
  simp [valuesOfKey, List.filterMap_append]

lemma valuesOfKey_single_same (k : String) (v : JSValue) :
    valuesOfKey k [(k, v)] = [v] := by
  simp [valuesOfKey]

lemma valuesOfKey_single_other (k k' : String) (v : JSValue) (h : k ≠ k') :
    valuesOfKey k [(k', v)] = [] := by
  simp [valuesOfKey, Ne.symm h]

lemma valuesOfKey_eq_nil (k : String) (kvs : List KV)
    (hk : k ∉ kvs.map Prod.fst) : valuesOfKey k kvs = [] := by
  rw [valuesOfKey, List.filterMap_eq_nil_iff]
  intro kv hkv
  rw [if_neg]
  intro e
  exact hk (e ▸ List.mem_map_of_mem Prod.fst hkv)

lemma firstConcreteType_append_single (vs : List JSValue) (v : JSValue) :
    firstConcreteType (vs ++ [v]) =
      if firstConcreteType vs = DataType.Unknown then determineDataType v
      else firstConcreteType vs := by
  unfold firstConcreteType
  rw [List.find?_append]
  cases hf : vs.find? (fun w => determineDataType w != DataType.Unknown) with
  | some w =>
      have hw := List.find?_some hf
      rw [bne_iff_ne] at hw
      simp [Option.or, hw]
  | none =>
      by_cases hv : determineDataType v = DataType.Unknown
      · have hfv : [v].find? (fun w => determineDataType w != DataType.Unknown) = none := by
          simp [List.find?, hv]
        rw [hfv]
        simp [Option.or, hv]
      · have hbne : (determineDataType v != DataType.Unknown) = true := bne_iff_ne.mpr hv
        have hfv : [v].find? (fun w => determineDataType w != DataType.Unknown) = some v := by
          simp [List.find?, hbne]
        rw [hfv]
        simp [Option.or, hv]

lemma take_three_mem {l : List String} {a : String} (h : a ∈ l.take 3) : a ∈ l :=
  (List.take_sublist 3 l).subset h

lemma sampleSpec_append_single (vs : List JSValue) (v : JSValue) :
    sampleSpec (vs ++ [v]) = sampleAdd (sampleSpec vs) v := by
  unfold sampleSpec sampleAdd
  by_cases hse : getSampleValue v = ""
  · have hmap : (((vs ++ [v]).map getSampleValue).filter (fun s => s != ""))
        = ((vs.map getSampleValue).filter (fun s => s != "")) := by
      simp [List.map_append, List.filter_append, List.filter_singleton, hse]
    rw [hmap]
    split
    · simp [hse]
    · rfl
  · have hmap : (((vs ++ [v]).map getSampleValue).filter (fun s => s != ""))
        = ((vs.map getSampleValue).filter (fun s => s != "")) ++ [getSampleValue v] := by
      simp [List.map_append, List.filter_append, List.filter_singleton, hse]
    rw [hmap, firstSeen_append_single]
    set s := getSampleValue v with hs
    set D := firstSeen ((vs.map getSampleValue).filter (fun t => t != "")) with hD
    unfold insertKey
    by_cases hsD : s ∈ D
    · rw [if_pos hsD]
      by_cases hlen : D.length < 3
      · have ht : D.take 3 = D := List.take_of_length_le (by omega)
        have hc : (s != "" && !(D.contains s)) = false := by
          simp [contains_eq_decide_mem, hsD]
        rw [ht, if_pos hlen]
        simp [hc, hsD]
      · have ht : (D.take 3).length = 3 := by
          rw [List.length_take]; omega
        rw [if_neg (by omega)]
    · rw [if_neg hsD]
      by_cases hlen : D.length < 3
      · have ht : D.take 3 = D := List.take_of_length_le (by omega)
        have ht2 : (D ++ [s]).take 3 = D ++ [s] :=
          List.take_of_length_le (by simp; omega)
        have hc : (s != "" && !(D.contains s)) = true := by
          simp [contains_eq_decide_mem, hsD, hse]
        rw [ht2, ht, if_pos hlen]
        simp [hc, hse, hsD]
      · have ht : (D.take 3).length = 3 := by
          rw [List.length_take]; omega
        rw [List.take_append_of_le_length (by omega), if_neg (by omega)]

@[simp] lemma fieldSpec_name (k : String) (kvs : List KV) :
    (fieldSpec k kvs).name = k := rfl

@[simp] lemma updateField_name (f : Field) (v : JSValue) :
    (updateField f v).name = f.name := by
  simp only [updateField]
  split <;> rfl

lemma updateField_fieldSpec (k : String) (done : List KV) (v : JSValue) :
    updateField (fieldSpec k done) v = fieldSpec k (done ++ [(k, v)]) := by
  have hv1 : valuesOfKey k (done ++ [(k, v)]) = valuesOfKey k done ++ [v] := by
    rw [valuesOfKey_append, valuesOfKey_single_same]
  unfold updateField
  by_cases hu : firstConcreteType (valuesOfKey k done) = DataType.Unknown
  · by_cases hvd : determineDataType v = DataType.Unknown
    · rw [if_neg (by simp [hvd])]
      simp [fieldSpec, hv1, firstConcreteType_append_single, hu, hvd,
        sampleSpec_append_single]
    · rw [if_pos (by simp [fieldSpec, hu, hvd])]
      simp [fieldSpec, hv1, firstConcreteType_append_single, hu,
        sampleSpec_append_single]
  · rw [if_neg (by simp [fieldSpec, hu])]
    simp [fieldSpec, hv1, firstConcreteType_append_single, hu,
      sampleSpec_append_single]

lemma sampleSpec_single (v : JSValue) :
    sampleSpec [v] = if getSampleValue v = "" then [] else [getSampleValue v] := by
  unfold sampleSpec
  by_cases h : getSampleValue v = ""
  · simp [List.filter_singleton, h, firstSeen]
  · simp [List.filter_singleton, h, firstSeen, insertKey]

lemma newField_fieldSpec (k : String) (v : JSValue) :
    updateField (initField k v) v = fieldSpec k [(k, v)] := by
  unfold updateField initField
  have hvk : valuesOfKey k [(k, v)] = [v] := valuesOfKey_single_same k v
  have hfc : firstConcreteType [v] = determineDataType v := by
    unfold firstConcreteType
    by_cases hv : determineDataType v = DataType.Unknown
    · simp [List.find?, hv]
    · have hbne : (determineDataType v != DataType.Unknown) = true := bne_iff_ne.mpr hv
      simp [List.find?, hbne]
  by_cases hv : determineDataType v = DataType.Unknown
  · rw [if_neg (by simp [hv])]
    simp [fieldSpec, hvk, hfc, sampleAdd, sampleSpec_single]
  · rw [if_neg (by simp [hv])]
    simp [fieldSpec, hvk, hfc, sampleAdd, sampleSpec_single]

lemma fieldSpec_irrelevant (key : String) (done : List KV) (k : String)
    (v : JSValue) (hne : key ≠ k) :
    fieldSpec key (done ++ [(k, v)]) = fieldSpec key done := by
  simp [fieldSpec, valuesOfKey_append, valuesOfKey_single_other key k v hne]

lemma fieldSpec_drop_prefix (k : String) (done : List KV)
    (hk : k ∉ done.map Prod.fst) (v : JSValue) :
    fieldSpec k (done ++ [(k, v)]) = fieldSpec k [(k, v)] := by
  simp [fieldSpec, valuesOfKey_append, valuesOfKey_eq_nil k done hk]

lemma discover_step (done : List KV) (k : String) (v : JSValue) :
    step ((firstSeen (done.map Prod.fst)).map (fun key => fieldSpec key done)) (k, v)
      = (firstSeen ((done ++ [(k, v)]).map Prod.fst)).map
          (fun key => fieldSpec key (done ++ [(k, v)])) := by
  unfold step processKey
  have hnames : (done ++ [(k, v)]).map Prod.fst = done.map Prod.fst ++ [k] := by
    simp
  rw [hnames, firstSeen_append_single]
  by_cases hk : k ∈ firstSeen (done.map Prod.fst)
  · rw [if_pos]
    · rw [insertKey, if_pos hk, List.map_map]
      refine List.map_congr_left (fun key hkey => ?_)
      simp only [Function.comp_apply, fieldSpec_name]
      by_cases hek : key = k
      · subst hek
        rw [if_pos (by simp), updateField_fieldSpec]
      · rw [if_neg (by simp [hek]), fieldSpec_irrelevant key done k v hek]
    · exact List.any_eq_true.mpr
        ⟨fieldSpec k done, List.mem_map_of_mem _ hk, by simp⟩
  · rw [if_neg, insertKey, if_neg hk, List.map_append]
    · have hlast : updateField (initField k v) v = fieldSpec k (done ++ [(k, v)]) := by
        rw [newField_fieldSpec,
          fieldSpec_drop_prefix k done (fun hm => hk ((mem_firstSeen k _).mpr hm)) v]
      rw [hlast]
      have hrest : (firstSeen (done.map Prod.fst)).map (fun key => fieldSpec key done)
          = (firstSeen (done.map Prod.fst)).map (fun key => fieldSpec key (done ++ [(k, v)])) :=
        List.map_congr_left (fun key hkey =>
          (fieldSpec_irrelevant key done k v (fun e => hk (e ▸ hkey))).symm)
      rw [hrest]
      rfl
    · intro hany
      obtain ⟨f, hf, hbeq⟩ := List.any_eq_true.mp hany
      obtain ⟨key, hkey, rfl⟩ := List.mem_map.mp hf
      rw [fieldSpec_name, beq_iff_eq] at hbeq
      dsimp only at hbeq
      exact hk (hbeq ▸ hkey)

lemma discover_go (todo : List KV) :
    ∀ done : List KV,
      todo.foldl step ((firstSeen (done.map Prod.fst)).map (fun k => fieldSpec k done))
        = (firstSeen ((done ++ todo).map Prod.fst)).map
            (fun k => fieldSpec k (done ++ todo)) := by
  induction todo with
  | nil => intro done; simp
  | cons kv rest ih =>
      intro done
      obtain ⟨k, v⟩ := kv
      rw [List.foldl_cons, discover_step done k v]
      have := ih (done ++ [(k, v)])
      simpa using this

/-- The discovery fold produces exactly the fields `fieldSpec` describes, one
per distinct key in first-seen order. -/
theorem discoverFlat_spec (kvs : List KV) :
    discoverFlat kvs = (firstSeen (kvs.map Prod.fst)).map (fun k => fieldSpec k kvs) := by
  have := discover_go kvs []
  simpa [discoverFlat, firstSeen] using this

/-! ### Bridging the validation entry point to the discovery fold -/

/-- The own enumerable property names of an array element. -/
def jsKeys (x : JSValue) : List String := (recordKVs x).map Prod.fst

lemma processRecords_ok (items : List JSValue) :
    ∀ (i : Nat) (fs : List Field), (∀ x ∈ items, isPlainObject x = true) →
      processRecords items i fs = Except.ok ((items.flatMap recordKVs).foldl step fs) := by
  induction items with
  | nil => intro i fs _; rfl
  | cons x rest ih =>
      intro i fs hall
      have hx := hall x (List.mem_cons_self x rest)
      cases x with
      | obj kvs =>
          rw [show processRecords (JSValue.obj kvs :: rest) i fs
                = processRecords rest (i + 1) (kvs.foldl step fs) from rfl,
            ih (i + 1) _ (fun y hy => hall y (List.mem_cons_of_mem _ hy))]
          simp [List.flatMap_cons, recordKVs, List.foldl_append]
      | null => simp [isPlainObject] at hx
      | bool b => simp [isPlainObject] at hx
      | num n => simp [isPlainObject] at hx
      | str s => simp [isPlainObject] at hx
      | arr l => simp [isPlainObject] at hx

lemma processRecords_error (items : List JSValue) :
    ∀ (i : Nat) (fs : List Field), (∃ x ∈ items, isPlainObject x = false) →
      ∃ e, processRecords items i fs = Except.error e := by
  induction items with
  | nil => rintro i fs ⟨x, hx, _⟩; cases hx
  | cons x rest ih =>
      rintro i fs ⟨y, hy, hyo⟩
      cases x with
      | obj kvs =>
          rcases List.mem_cons.mp hy with rfl | hy'
          · simp [isPlainObject] at hyo
          · have := ih (i + 1) (kvs.foldl step fs) ⟨y, hy', hyo⟩
            simpa [processRecords] using this
      | null => exact ⟨ValidationError.itemNotObject i, rfl⟩
      | bool b => exact ⟨ValidationError.itemNotObject i, rfl⟩
      | num n => exact ⟨ValidationError.itemNotObject i, rfl⟩
      | str s => exact ⟨ValidationError.itemNotObject i, rfl⟩
      | arr l => exact ⟨ValidationError.itemNotObject i, rfl⟩

lemma validate_all_obj (items : List JSValue) (hemp : items.length ≠ 0)
    (hall : ∀ x ∈ items, isPlainObject x = true) :
    validateAndProcessJson (JSValue.arr items)
      = (if (discoverFlat (items.flatMap recordKVs)).length = 0
         then Except.error ValidationError.noFields
         else Except.ok (discoverFlat (items.flatMap recordKVs))) := by
  simp only [validateAndProcessJson]
  rw [if_neg hemp, processRecords_ok items 0 [] hall]
  rfl

lemma flatMap_recordKVs_map_obj (records : List Record) :
    (records.map JSValue.obj).flatMap recordKVs = allKVs records := by
  induction records with
  | nil => rfl
  | cons r rs ih => simp [List.flatMap_cons, allKVs, recordKVs, ih]

lemma flatMap_keys (items : List JSValue) :
    (items.flatMap recordKVs).map Prod.fst = items.flatMap jsKeys := by
  induction items with
  | nil => rfl
  | cons x xs ih => simp [List.flatMap_cons, List.map_append, jsKeys, ih]

/-! ### Theorems: field discovery -/

/-- C5 (amended): for every non-empty record array *holding at least one key
across all records* (discovery rejects a key-less array, see the
counterexample), discovery succeeds with exactly one field per distinct key,
in first-seen order: the field-name sequence is the first-sighting dedup of
the concatenated key sequence, has no duplicates, and contains exactly the
keys occurring in the records. -/
theorem discovery_fields_firstSeen (records : List Record) (hne : records ≠ [])
    (hkeys : allKeys records ≠ []) :
    ∃ fields,
      validateAndProcessJson (JSValue.arr (records.map JSValue.obj)) = Except.ok fields
      ∧ fields.map Field.name = firstSeen (allKeys records)
      ∧ (fields.map Field.name).Nodup
      ∧ ∀ k, k ∈ fields.map Field.name ↔ k ∈ allKeys records := by
  have hemp : (records.map JSValue.obj).length ≠ 0 := by
    simpa [List.length_eq_zero] using hne
  have hall : ∀ x ∈ records.map JSValue.obj, isPlainObject x = true := by
    intro x hx
    obtain ⟨r, hr, hrx⟩ := List.mem_map.mp hx
    rw [← hrx]
    rfl
  have hspec : discoverFlat ((records.map JSValue.obj).flatMap recordKVs)
      = (firstSeen (allKeys records)).map (fun k => fieldSpec k (allKVs records)) := by
    rw [flatMap_recordKVs_map_obj, discoverFlat_spec]
    rfl
  have hnames :
      ((firstSeen (allKeys records)).map (fun k => fieldSpec k (allKVs records))).map Field.name
        = firstSeen (allKeys records) := by
    simp [List.map_map, Function.comp_def]
  have hlen0 : (discoverFlat ((records.map JSValue.obj).flatMap recordKVs)).length ≠ 0 := by
    rw [hspec, List.length_map]
    intro h0
    exact hkeys ((firstSeen_eq_nil_iff _).mp (List.length_eq_zero.mp h0))
  refine ⟨(firstSeen (allKeys records)).map (fun k => fieldSpec k (allKVs records)),
    ?_, hnames, ?_, ?_⟩
  · rw [validate_all_obj _ hemp hall, if_neg hlen0, hspec]
  · rw [hnames]; exact nodup_firstSeen _
  · intro k; rw [hnames]; exact mem_firstSeen k _

/-- C5 counterexample: `[{}]` is a non-empty array of plain objects, yet
discovery produces a ValidationError (no fields found) rather than a field
list. -/
theorem discovery_fields_cex :
    validateAndProcessJson (JSValue.arr [JSValue.obj []])
      = Except.error ValidationError.noFields := rfl

/-- Witness for the amended C5 on the end-to-end scenario records. -/
theorem discovery_fields_witness :
    validateAndProcessJson (JSValue.arr (c2Records.map JSValue.obj)) = Except.ok c2Fields
  ∧ c2Fields.map Field.name = firstSeen (allKeys c2Records)
  ∧ (c2Fields.map Field.name).Nodup := by
  obtain ⟨fields, h1, h2, h3, _⟩ :=
    discovery_fields_firstSeen c2Records (by simp [c2Records]) (by decide)
  have hv : validateAndProcessJson (JSValue.arr (c2Records.map JSValue.obj))
      = Except.ok c2Fields := rfl
  have he : fields = c2Fields := Except.ok.inj ((h1.symm.trans hv))
  exact ⟨hv, he ▸ h2, he ▸ h3⟩

lemma validate_ok_inv (records : List Record) (fields : List Field)
    (hok : validateAndProcessJson (JSValue.arr (records.map JSValue.obj)) = Except.ok fields) :
    fields = (firstSeen (allKeys records)).map (fun k => fieldSpec k (allKVs records)) := by
  cases hrec : records with
  | nil => subst hrec; simp [validateAndProcessJson] at hok
  | cons r rs =>
      subst hrec
      have hemp : ((r :: rs).map JSValue.obj).length ≠ 0 := by simp
      have hall : ∀ x ∈ (r :: rs).map JSValue.obj, isPlainObject x = true := by
        intro x hx
        obtain ⟨y, hy, hyx⟩ := List.mem_map.mp hx
        rw [← hyx]
        rfl
      rw [validate_all_obj _ hemp hall] at hok
      split at hok
      · cases hok
      · have hinj := Except.ok.inj hok
        rw [← hinj, flatMap_recordKVs_map_obj, discoverFlat_spec]
        rfl

/-- C7: the type-upgrade rule promotes a field only from Unknown to the first
non-Unknown inference: for every record sequence accepted by discovery, every
produced field's final dataType equals the first non-Unknown type inferred
from that field's value sequence (Unknown when no value infers a concrete
type). -/
theorem typeUpgrade_firstConcrete (records : List Record) (fields : List Field)
    (hok : validateAndProcessJson (JSValue.arr (records.map JSValue.obj)) = Except.ok fields) :
    ∀ f ∈ fields, f.dataType = firstConcreteType (valuesOfKey f.name (allKVs records)) := by
  intro f hf
  rw [validate_ok_inv records fields hok] at hf
  obtain ⟨k, hk, hkf⟩ := List.mem_map.mp hf
  rw [← hkf]
  rfl

def c7Records : List Record := [[("a", JSValue.null)], [("a", JSValue.num 5)]]

/-- The single field discovery produces on `c7Records`: first sighting null
(Unknown), later upgraded to Number. -/
def c7Field : Field :=
  { name := "a", dataType := DataType.Number, sampleValues := ["null", "5"],
    isId := false, isName := false, isIncluded := true }

/-- Witness for C7: on `c7Records` the field "a" is seen as null then as `5`,
and its final type is the first concrete inference, Number. -/
theorem typeUpgrade_witness :
    c7Field.dataType = firstConcreteType (valuesOfKey c7Field.name (allKVs c7Records)) :=
  typeUpgrade_firstConcrete c7Records [c7Field] rfl c7Field (by decide)

/-- C8: every discovered field's sampleValues sequence is the 3-truncated
first-seen dedup of the non-empty projections of that field's values — hence
at most 3 elements, all distinct, all non-empty, in first-seen order, each the
stringified projection of a source value — and the projection maps null to
"null", a string over 30 characters to its first 27 followed by "...", numbers
and booleans to their string form, arrays to "[...]" and objects to the
brace-ellipsis literal; an `undefined` value never occurs in parsed JSON and
is never sampled. -/
theorem sampleValues_spec (records : List Record) (fields : List Field)
    (hok : validateAndProcessJson (JSValue.arr (records.map JSValue.obj)) = Except.ok fields) :
    (∀ f ∈ fields,
        f.sampleValues
            = (firstSeen (((valuesOfKey f.name (allKVs records)).map getSampleValue).filter
                (fun s => s != ""))).take 3
          ∧ f.sampleValues.length ≤ 3
          ∧ f.sampleValues.Nodup
          ∧ ∀ s ∈ f.sampleValues,
              s ≠ "" ∧ ∃ v ∈ valuesOfKey f.name (allKVs records), s = getSampleValue v)
  ∧ getSampleValue JSValue.null = "null"
  ∧ (∀ s : String, 30 < s.length → getSampleValue (JSValue.str s) = s.take 27 ++ "...")
  ∧ (∀ s : String, s.length ≤ 30 → getSampleValue (JSValue.str s) = s)
  ∧ (∀ n : Int, getSampleValue (JSValue.num n) = toString n)
  ∧ (∀ b : Bool, getSampleValue (JSValue.bool b) = (if b then "true" else "false"))
  ∧ (∀ l : List JSValue, getSampleValue (JSValue.arr l) = "[...]")
  ∧ (∀ o : List (String × JSValue), getSampleValue (JSValue.obj o) = "\x7b...\x7d") := by
  refine ⟨?_, rfl, ?_, ?_, fun n => rfl, fun b => rfl, fun l => rfl, fun o => rfl⟩
  · intro f hf
    rw [validate_ok_inv records fields hok] at hf
    obtain ⟨k, hk, hkf⟩ := List.mem_map.mp hf
    have hval : f.sampleValues
        = (firstSeen (((valuesOfKey f.name (allKVs records)).map getSampleValue).filter
            (fun s => s != ""))).take 3 := by
      rw [← hkf]; rfl
    refine ⟨hval, ?_, ?_, ?_⟩
    · rw [hval, List.length_take]
      omega
    · rw [hval]
      exact List.Nodup.sublist (List.take_sublist 3 _) (nodup_firstSeen _)
    · intro s hs
      rw [hval] at hs
      have hs2 := (mem_firstSeen s _).mp (take_three_mem hs)
      have hs3 := List.mem_filter.mp hs2
      obtain ⟨v, hv, hvs⟩ := List.mem_map.mp hs3.1
      exact ⟨by simpa using hs3.2, v, hv, hvs.symm⟩
  · intro s hlong
    simp [getSampleValue, hlong]
  · intro s hshort
    simp [getSampleValue]
    omega

/-- Witness for C8 on `c7Records`: the samples of field "a" are ["null","5"],
matching the first-seen characterisation, of length at most 3 and distinct. -/
theorem sampleValues_witness :
    c7Field.sampleValues
        = (firstSeen (((valuesOfKey c7Field.name (allKVs c7Records)).map getSampleValue).filter
            (fun s => s != ""))).take 3
      ∧ c7Field.sampleValues.length ≤ 3
      ∧ c7Field.sampleValues.Nodup := by
  obtain ⟨h1, h2, h3, _⟩ := (sampleValues_spec c7Records [c7Field] rfl).1 c7Field (by decide)
  exact ⟨h1, h2, h3⟩

/-- C6: discovery fails (with a ValidationError, producing no field list)
exactly when the parsed input is not an array, is an empty array, has an
element that is not a plain object, or has an empty union of keys across all
records. -/
theorem discovery_validation_iff (v : JSValue) :
    (∃ e, validateAndProcessJson v = Except.error e) ↔
      (match v with
       | JSValue.arr items =>
           items = [] ∨ (∃ x ∈ items, isPlainObject x = false) ∨ items.flatMap jsKeys = []
       | _ => True) := by
  cases v with
  | arr items =>
      by_cases hemp : items = []
      · subst hemp
        simp [validateAndProcessJson]
      · by_cases hall : ∀ x ∈ items, isPlainObject x = true
        · have hnotbad : ¬∃ x ∈ items, isPlainObject x = false := by
            rintro ⟨x, hx, hxf⟩
            rw [hall x hx] at hxf
            cases hxf
          have hlen : items.length ≠ 0 := by
            simpa [List.length_eq_zero] using hemp
          rw [validate_all_obj items hlen hall]
          have hkeyform : (discoverFlat (items.flatMap recordKVs)).length = 0
              ↔ items.flatMap jsKeys = [] := by
            rw [discoverFlat_spec, List.length_map, List.length_eq_zero,
              firstSeen_eq_nil_iff, flatMap_keys]
          by_cases hK : items.flatMap jsKeys = []
          · rw [if_pos (hkeyform.mpr hK)]
            simp [hemp, hnotbad, hK]
          · rw [if_neg (fun h0 => hK (hkeyform.mp h0))]
            simp [hemp, hnotbad, hK]
        · have hbad : ∃ x ∈ items, isPlainObject x = false := by
            push_neg at hall
            obtain ⟨x, hx, hxf⟩ := hall
            exact ⟨x, hx, by simpa using hxf⟩
          obtain ⟨e, he⟩ := processRecords_error items 0 [] hbad
          have hlen : items.length ≠ 0 := by
            simpa [List.length_eq_zero] using hemp
          have hval : validateAndProcessJson (JSValue.arr items) = Except.error e := by
            simp only [validateAndProcessJson]
            rw [if_neg hlen, he]
          simp [hval, hbad]
  | null => simp [validateAndProcessJson]
  | bool b => simp [validateAndProcessJson]
  | num n => simp [validateAndProcessJson]
  | str s => simp [validateAndProcessJson]
  | obj o => simp [validateAndProcessJson]

end RefWire
